import Mathlib

/-!
Verification of the Liftoff riscv32 baseline-assembler backend
(`src/wasm/baseline/riscv32/liftoff-assembler-riscv32.h`) against its
natural-language specification.  Each source function needed by a claim is
shallow-embedded as an executable Lean definition; machine words are `Nat`
values reduced `% 2^32` where overflow matters, memory is a function from
addresses to stored values, and emitted instruction sequences are either
interpreted directly (state passing) or represented as explicit data.
-/

/-! ## Shared 32-bit word basics -/

/-- `2^32`, the wrap-around modulus of the 32-bit general-purpose registers. -/
def wordMod : Nat := 4294967296

/-- Reinterpret a 32-bit pattern as a signed (two's-complement) integer. -/
def toSigned (x : Nat) : Int :=
  if x < 2147483648 then (x : Int) else (x : Int) - (wordMod : Int)

/-- Truncate an integer to its 32-bit two's-complement pattern. -/
def toU32 (x : Int) : Nat := (x % (wordMod : Int)).toNat

/-- Pointwise-update of a memory (or register file) modelled as a function. -/
def upd {α : Type} [DecidableEq α] (m : α → Nat) (a : α) (v : Nat) : α → Nat :=
  fun x => if x = a then v else m x

theorem upd_same {α : Type} [DecidableEq α] (m : α → Nat) (a : α) (v : Nat) :
    upd m a v a = v := by simp [upd]

theorem upd_other {α : Type} [DecidableEq α] (m : α → Nat) (a b : α) (v : Nat)
    (h : b ≠ a) : upd m a v b = m b := by simp [upd, h]

/-! ## C4: `liftoff::EnsureNoAlias` (source lines 188-198)

The source:
```
inline Register EnsureNoAlias(Assembler* assm, Register reg,
                              LiftoffRegister must_not_alias,
                              UseScratchRegisterScope* temps) {
  if (reg != must_not_alias.low_gp() && reg != must_not_alias.high_gp())
    return reg;
  Register tmp = temps->Acquire();
  DCHECK_NE(must_not_alias.low_gp(), tmp);
  DCHECK_NE(must_not_alias.high_gp(), tmp);
  assm->mv(tmp, reg);
  return tmp;
}
```
Registers are identified by their numeric codes.  The register handed out by
`temps->Acquire()` is passed in as `tmp`; the two `DCHECK`s of the source
become hypotheses of the theorem.  The result is the returned register
together with the emitted move (`some (dst, src)` for `mv dst, src`). -/

/-- A Liftoff register pair: low and high word register codes. -/
structure LiftoffRegPair where
  low : Nat
  high : Nat

/-- Shallow embedding of `liftoff::EnsureNoAlias`: returns the register the
function returns and the `mv` instruction it emits, if any. -/
def EnsureNoAlias (reg : Nat) (must_not_alias : LiftoffRegPair) (tmp : Nat) :
    Nat × Option (Nat × Nat) :=
  if reg ≠ must_not_alias.low ∧ reg ≠ must_not_alias.high then (reg, none)
  else (tmp, some (tmp, reg))

/-- C4: EnsureNoAlias returns the candidate unchanged, with no move emitted,
iff the candidate equals neither half of the pair; otherwise it returns the
acquired temporary, which is distinct from both halves of the pair and from
the candidate, and emits a move copying the candidate's value into it. -/
theorem EnsureNoAlias_correct (reg : Nat) (p : LiftoffRegPair) (tmp : Nat)
    (htl : tmp ≠ p.low) (hth : tmp ≠ p.high) :
    ((EnsureNoAlias reg p tmp = (reg, none)) ↔ (reg ≠ p.low ∧ reg ≠ p.high)) ∧
    ((reg = p.low ∨ reg = p.high) →
      (EnsureNoAlias reg p tmp).1 = tmp ∧ tmp ≠ p.low ∧ tmp ≠ p.high ∧
      (EnsureNoAlias reg p tmp).1 ≠ reg ∧
      (EnsureNoAlias reg p tmp).2 = some (tmp, reg)) := by
  constructor
  · constructor
    · intro h
      by_contra hc
      rw [not_and_or, not_not, not_not] at hc
      have : EnsureNoAlias reg p tmp = (tmp, some (tmp, reg)) := by
        unfold EnsureNoAlias
        rw [if_neg]
        intro ⟨h1, h2⟩
        rcases hc with hc | hc <;> [exact h1 hc; exact h2 hc]
      rw [this] at h
      have := congrArg Prod.snd h
      simp at this
    · intro h
      unfold EnsureNoAlias
      rw [if_pos h]
  · intro h
    have hne : ¬(reg ≠ p.low ∧ reg ≠ p.high) := by
      intro ⟨h1, h2⟩
      rcases h with h | h <;> [exact h1 h; exact h2 h]
    have heq : EnsureNoAlias reg p tmp = (tmp, some (tmp, reg)) := by
      unfold EnsureNoAlias
      rw [if_neg hne]
    refine ⟨by rw [heq], htl, hth, ?_, by rw [heq]⟩
    rw [heq]
    rcases h with h | h
    · subst h; exact fun hc => htl hc
    · subst h; exact fun hc => hth hc

/-- C4 witness: a concrete aliasing candidate (`reg = low half`) is replaced
by the temporary, and a concrete non-aliasing candidate is kept. -/
theorem EnsureNoAlias_correct_witness :
    (EnsureNoAlias 3 ⟨3, 4⟩ 7).1 = 7 ∧ EnsureNoAlias 5 ⟨3, 4⟩ 7 = (5, none) :=
  ⟨((EnsureNoAlias_correct 3 ⟨3, 4⟩ 7 (by decide) (by decide)).2
      (Or.inl rfl)).1,
    ((EnsureNoAlias_correct 5 ⟨3, 4⟩ 7 (by decide) (by decide)).1).2
      (by decide)⟩

/-! ## C9: `emit_i32_divs` / `emit_i32_divu` / `emit_i32_rems` /
`emit_i32_remu` (source lines 1212-1243)

Register contents are 32-bit patterns (`Nat < 2^32`).  The emitted code's
run-time behaviour is a function from the two operand patterns to either a
taken trap branch or the value written to `dst`:

* `emit_i32_divs` first branches to `trap_div_by_zero` when `rhs == 0`; then
  `CompareI(kScratchReg, lhs, Operand(kMinInt), ne)` and
  `CompareI(kScratchReg2, rhs, Operand(-1), ne)` each write 1 when the
  operands differ and 0 when they are equal (the `CompareI` macro sets its
  destination to the truth value of the comparison; this macro lives outside
  `src/`, modelled from its documented behaviour), the two flags are added
  and the code branches to `trap_div_unrepresentable` when the sum is zero;
  finally `Div dst, lhs, rhs` writes the truncated signed quotient (RISC-V
  `div` semantics, truncated toward zero: `Int.tdiv`).
* the unsigned / remainder variants only guard against `rhs == 0`. -/

/-- Outcome of the emitted division / remainder code: a taken trap branch or
the 32-bit pattern written to `dst`. -/
inductive I32DivResult where
  | trapDivByZero : I32DivResult
  | trapUnrepresentable : I32DivResult
  | val (dst : Nat) : I32DivResult
deriving DecidableEq

/-- Bit pattern of `kMinInt` (INT32_MIN). -/
def kMinIntPat : Nat := 2147483648

/-- Bit pattern of `-1`. -/
def kNeg1Pat : Nat := 4294967295

/-- Shallow embedding of the code emitted by `emit_i32_divs`, evaluated on
the run-time register contents `lhs`, `rhs`. -/
def emit_i32_divs (lhs rhs : Nat) : I32DivResult :=
  if rhs = 0 then .trapDivByZero
  else
    let scratch1 : Nat := if lhs ≠ kMinIntPat then 1 else 0
    let scratch2 : Nat := if rhs ≠ kNeg1Pat then 1 else 0
    if (scratch1 + scratch2) % wordMod = 0 then .trapUnrepresentable
    else .val (toU32 (Int.tdiv (toSigned lhs) (toSigned rhs)))

/-- Shallow embedding of the code emitted by `emit_i32_divu`. -/
def emit_i32_divu (lhs rhs : Nat) : I32DivResult :=
  if rhs = 0 then .trapDivByZero else .val (lhs / rhs)

/-- Shallow embedding of the code emitted by `emit_i32_rems`. -/
def emit_i32_rems (lhs rhs : Nat) : I32DivResult :=
  if rhs = 0 then .trapDivByZero
  else .val (toU32 (Int.tmod (toSigned lhs) (toSigned rhs)))

/-- Shallow embedding of the code emitted by `emit_i32_remu`. -/
def emit_i32_remu (lhs rhs : Nat) : I32DivResult :=
  if rhs = 0 then .trapDivByZero else .val (lhs % rhs)

/-- C9: the emitted i32 division/remainder code traps exactly on the failure
conditions: `emit_i32_divs` takes the `trap_div_by_zero` branch iff the
divisor pattern is zero and the `trap_div_unrepresentable` branch iff the
dividend is INT32_MIN and the divisor is -1 (divisor nonzero); otherwise it
writes the truncated signed quotient.  The three other operations trap iff
the divisor is zero and otherwise write the correct quotient or remainder. -/
theorem i32_div_rem_trap_conditions (lhs rhs : Nat)
    (hl : lhs < wordMod) (hr : rhs < wordMod) :
    ((emit_i32_divs lhs rhs = .trapDivByZero ↔ rhs = 0) ∧
     (emit_i32_divs lhs rhs = .trapUnrepresentable ↔
        rhs ≠ 0 ∧ lhs = kMinIntPat ∧ rhs = kNeg1Pat) ∧
     (rhs ≠ 0 → ¬(lhs = kMinIntPat ∧ rhs = kNeg1Pat) →
        emit_i32_divs lhs rhs =
          .val (toU32 (Int.tdiv (toSigned lhs) (toSigned rhs))))) ∧
    ((emit_i32_divu lhs rhs = .trapDivByZero ↔ rhs = 0) ∧
     (rhs ≠ 0 → emit_i32_divu lhs rhs = .val (lhs / rhs))) ∧
    ((emit_i32_rems lhs rhs = .trapDivByZero ↔ rhs = 0) ∧
     (rhs ≠ 0 → emit_i32_rems lhs rhs =
        .val (toU32 (Int.tmod (toSigned lhs) (toSigned rhs))))) ∧
    ((emit_i32_remu lhs rhs = .trapDivByZero ↔ rhs = 0) ∧
     (rhs ≠ 0 → emit_i32_remu lhs rhs = .val (lhs % rhs))) := by
  refine ⟨⟨?_, ?_, ?_⟩, ⟨?_, ?_⟩, ⟨?_, ?_⟩, ⟨?_, ?_⟩⟩
  · unfold emit_i32_divs
    by_cases h : rhs = 0
    · simp [h]
    · simp only [h, if_false, iff_false]
      by_cases h1 : lhs = kMinIntPat <;> by_cases h2 : rhs = kNeg1Pat <;>
        simp_all [wordMod]
  · unfold emit_i32_divs
    by_cases h : rhs = 0
    · simp [h]
    · simp only [h, if_false]
      by_cases h1 : lhs = kMinIntPat <;> by_cases h2 : rhs = kNeg1Pat <;>
        simp_all [wordMod]
  · intro h hnot
    unfold emit_i32_divs
    rw [if_neg h]
    have : ¬(lhs ≠ kMinIntPat) ∨ ¬(rhs ≠ kNeg1Pat) → False → True := by simp
    by_cases h1 : lhs = kMinIntPat <;> by_cases h2 : rhs = kNeg1Pat <;>
      simp_all [wordMod]
  · unfold emit_i32_divu
    by_cases h : rhs = 0 <;> simp [h]
  · intro h; unfold emit_i32_divu; rw [if_neg h]
  · unfold emit_i32_rems
    by_cases h : rhs = 0 <;> simp [h]
  · intro h; unfold emit_i32_rems; rw [if_neg h]
  · unfold emit_i32_remu
    by_cases h : rhs = 0 <;> simp [h]
  · intro h; unfold emit_i32_remu; rw [if_neg h]

/-- C9 witness: at the concrete input `lhs = INT32_MIN`, `rhs = -1` the
signed division takes the unrepresentable trap, and at `lhs = -7`, `rhs = 2`
it writes the truncated quotient `-3`. -/
theorem i32_div_rem_trap_conditions_witness :
    emit_i32_divs kMinIntPat kNeg1Pat = .trapUnrepresentable ∧
    emit_i32_divs (toU32 (-7)) 2 = .val (toU32 (-3)) := by
  constructor
  · exact ((i32_div_rem_trap_conditions kMinIntPat kNeg1Pat (by decide)
      (by decide)).1.2.1).2 ⟨by decide, rfl, rfl⟩
  · have h := ((i32_div_rem_trap_conditions (toU32 (-7)) 2 (by decide)
      (by decide)).1.2.2) (by decide) (by decide)
    rw [h]
    decide

/-! ## C6: `Spill` / `Fill` (source lines 1055-1087 and 1121-1151) and
`liftoff::GetHalfStackSlot` (lines 87-91)

Memory is a map from byte addresses (`Int`) to the value stored by the one
store instruction that wrote at that address (`Sw`: a 32-bit word,
`StoreFloat`: 32 bits, `StoreDouble`: 64 bits, `vs`: 128 bits); all
addresses used by one `Spill`/`Fill` pair at the same offset and kind are
equal or at least 4 bytes apart, so this granularity is faithful here.
`kStackSlotSize` is `LiftoffAssembler::kStackSlotSize = 8` (declared in the
platform-independent `liftoff-assembler.h`, outside `src/`; the value 8 is
forced by `GetHalfStackSlot`, whose high-word half-offset
`kStackSlotSize / 2` must be the 4 of `liftoff::kHighWordOffset`).

The kinds are the eight members of `ValueKind` that this file's switches
name: `kI32, kI64, kF32, kF64, kS128, kRtt, kRef, kOptRef`.  `Spill`'s
switch handles all eight; `Fill`'s switch is missing `kRtt` (its `kI32`
group lists only `kI32, kRef, kOptRef`), so `Fill` with `kRtt` falls into
`default: UNREACHABLE()`, embedded as `none`. -/

/-- The eight `ValueKind`s used by the riscv32 Liftoff lowering. -/
inductive ValueKind where
  | i32 | i64 | f32 | f64 | s128 | rtt | ref | optref
deriving DecidableEq

/-- A value as held by a `LiftoffRegister` of the matching register class:
one general-purpose word, a low/high pair of words for `kI64`, or the raw
bits of a float / double / 128-bit vector register. -/
inductive LiftValue where
  | word (w : Nat)
  | pair (lo hi : Nat)
  | f32bits (b : Nat)
  | f64bits (b : Nat)
  | v128bits (b : Nat)
deriving DecidableEq

/-- `liftoff::GetStackSlot(offset)` = `MemOperand(fp, -offset)`. -/
def GetStackSlot (fp : Int) (offset : Int) : Int := fp - offset

/-- Register-pair halves. -/
inductive RegPairHalf where
  | low | high
deriving DecidableEq

/-- `LiftoffAssembler::kStackSlotSize` (see the section comment). -/
def kStackSlotSize : Int := 8

/-- `liftoff::GetHalfStackSlot(offset, half)`: base register is `fp` when
`offset > 0` and `sp` otherwise; the high word lives `kStackSlotSize / 2`
bytes above the low word. -/
def GetHalfStackSlot (fp sp : Int) (offset : Int) (half : RegPairHalf) : Int :=
  let half_offset : Int := if half = .low then 0 else kStackSlotSize / 2
  (if offset > 0 then fp else sp) + (-offset + half_offset)

/-- Shallow embedding of `LiftoffAssembler::Spill(offset, reg, kind)` as a
memory transformer; `none` models `UNREACHABLE()` (and a register whose
shape does not fit the kind, which the register allocator rules out). -/
def Spill (mem : Int → Nat) (fp sp : Int) (offset : Int) (reg : LiftValue)
    (kind : ValueKind) : Option (Int → Nat) :=
  match kind, reg with
  | .i32, .word w | .ref, .word w | .optref, .word w | .rtt, .word w =>
      some (upd mem (GetStackSlot fp offset) w)
  | .i64, .pair lo hi =>
      some (upd (upd mem (GetHalfStackSlot fp sp offset .low) lo)
        (GetHalfStackSlot fp sp offset .high) hi)
  | .f32, .f32bits b => some (upd mem (GetStackSlot fp offset) b)
  | .f64, .f64bits b => some (upd mem (GetStackSlot fp offset) b)
  | .s128, .v128bits b => some (upd mem (GetStackSlot fp offset) b)
  | _, _ => none

/-- Shallow embedding of `LiftoffAssembler::Fill(reg, offset, kind)`:
the value loaded into the destination register.  `kind = kRtt` falls into
the switch's `default: UNREACHABLE()`, hence `none`. -/
def Fill (mem : Int → Nat) (fp sp : Int) (offset : Int) (kind : ValueKind) :
    Option LiftValue :=
  match kind with
  | .i32 | .ref | .optref => some (.word (mem (GetStackSlot fp offset)))
  | .i64 => some (.pair (mem (GetHalfStackSlot fp sp offset .low))
      (mem (GetHalfStackSlot fp sp offset .high)))
  | .f32 => some (.f32bits (mem (GetStackSlot fp offset)))
  | .f64 => some (.f64bits (mem (GetStackSlot fp offset)))
  | .s128 => some (.v128bits (mem (GetStackSlot fp offset)))
  | .rtt => none

/-- The kinds for which `Fill`'s switch has a case (all of `ValueKind`
except `kRtt`). -/
def fillSupported (kind : ValueKind) : Bool :=
  match kind with
  | .rtt => false
  | _ => true

/-- A register value has the shape the kind's register class dictates. -/
def shapeOk (kind : ValueKind) (v : LiftValue) : Bool :=
  match kind, v with
  | .i32, .word _ | .ref, .word _ | .optref, .word _ | .rtt, .word _ => true
  | .i64, .pair _ _ => true
  | .f32, .f32bits _ => true
  | .f64, .f64bits _ => true
  | .s128, .v128bits _ => true
  | _, _ => false

/-- C6 counterexample: the claim quantifies over every `ValueKind`, but for
`kRtt` a `Spill` succeeds while the matching `Fill` hits the switch's
`default: UNREACHABLE()`: at offset 4 the round trip yields no value at
all rather than a value equal to the spilled one. -/
theorem spill_fill_rtt_counterexample :
    (Spill (fun _ => 0) 100 0 4 (.word 7) .rtt).isSome = true ∧
    ((Spill (fun _ => 0) 100 0 4 (.word 7) .rtt).bind
      (fun m => Fill m 100 0 4 .rtt)) = none := by
  constructor <;> rfl

/-- C6 (amended): for every `ValueKind` whose `Fill` case exists — all
kinds except `kRtt` — and every frame offset, spilling a register of that
kind and immediately filling from the same offset with the same kind
yields exactly the spilled value. -/
theorem spill_fill_roundtrip (kind : ValueKind) (v : LiftValue)
    (mem : Int → Nat) (fp sp offset : Int)
    (hfill : fillSupported kind = true) (hshape : shapeOk kind v = true) :
    (Spill mem fp sp offset v kind).bind
      (fun m => Fill m fp sp offset kind) = some v := by
  have hlh : GetHalfStackSlot fp sp offset .low ≠
      GetHalfStackSlot fp sp offset .high := by
    by_cases h : offset > 0 <;>
      simp [GetHalfStackSlot, kStackSlotSize, h] <;> omega
  cases kind <;> cases v <;>
    simp_all [shapeOk, fillSupported, Spill, Fill, upd_same]
  rw [upd_other _ _ _ _ hlh, upd_same]

/-- C6 witness: a concrete i64 pair round-trips through offset 12. -/
theorem spill_fill_roundtrip_witness :
    (Spill (fun _ => 9) 100 0 12 (.pair 5 6) .i64).bind
      (fun m => Fill m 100 0 12 .i64) = some (.pair 5 6) :=
  spill_fill_roundtrip .i64 (.pair 5 6) (fun _ => 9) 100 0 12 rfl rfl

/-! ## C5: `emit_f32x4_min` / `emit_f32x4_max` (source lines 3185-3209) and
`emit_f64x2_min` / `emit_f64x2_max` (source lines 3293-3319)

A 128-bit vector register with 32-bit lanes is `Fin 4 → Nat` (each lane a
32-bit pattern).  The RVV instructions used by the source are modelled per
the vector ISA, which is an external collaborator of this code (the spec's
"instruction encoder"): `vmfeq_vv vd, vs, vs` writes a lane mask that is
set exactly in the lanes where the float compare `vs[i] == vs[i]` holds,
i.e. where the lane is not a NaN pattern; `vand_vv` on masks is lane-wise
conjunction; `vmv_vx` broadcasts a scalar to all lanes; a masked
`vfmin_vv/vfmax_vv ..., Mask` computes the float min/max in the active
lanes and leaves inactive destination lanes undisturbed.

On non-NaN operands `vfmin`/`vfmax` return a smallest/largest operand with
respect to the IEEE-754 order, embedded here through the order-preserving
key `f32Key` (sign-magnitude to signed-integer order); the result is always
one of the two operand patterns.

`emit_f64x2_min` and `emit_f64x2_max` contain no instruction emission at
all: their bodies are commented out and they call
`bailout(kSimd, "emit_f64x2_min")` / `bailout(kSimd, "emit_f64x2_max")`. -/

/-- A lane (32-bit pattern) is an IEEE-754 single NaN: exponent all ones
and nonzero mantissa. -/
def isNaN32 (b : Nat) : Bool :=
  decide ((b / 8388608) % 256 = 255 ∧ b % 8388608 ≠ 0)

/-- Order key of a non-NaN float pattern: positives ascend with the
pattern, negatives descend with their magnitude. -/
def f32Key (b : Nat) : Int :=
  if b < 2147483648 then (b : Int) else -((b : Int) - 2147483648)

/-- The `vfmin` lane operation on non-NaN operands (first operand wins
ties, which only affects which of two order-equal patterns is returned). -/
def fmin32 (a b : Nat) : Nat := if f32Key a ≤ f32Key b then a else b

/-- The `vfmax` lane operation on non-NaN operands. -/
def fmax32 (a b : Nat) : Nat := if f32Key b ≤ f32Key a then a else b

/-- The canonical quiet-NaN pattern `kNaN = 0x7FC00000` materialized by the
source. -/
def kNaN32 : Nat := 2143289344

/-- Shallow embedding of the code emitted by `emit_f32x4_min`: the value
left in the destination vector register. -/
def emit_f32x4_min (lhs rhs : Fin 4 → Nat) : Fin 4 → Nat :=
  let mask1 : Fin 4 → Bool := fun i => !isNaN32 (lhs i)
  let mask2 : Fin 4 → Bool := fun i => !isNaN32 (rhs i)
  let v0 : Fin 4 → Bool := fun i => mask1 i && mask2 i
  let scratch : Fin 4 → Nat := fun _ => kNaN32
  fun i => if v0 i then fmin32 (rhs i) (lhs i) else scratch i

/-- Shallow embedding of the code emitted by `emit_f32x4_max`. -/
def emit_f32x4_max (lhs rhs : Fin 4 → Nat) : Fin 4 → Nat :=
  let mask1 : Fin 4 → Bool := fun i => !isNaN32 (lhs i)
  let mask2 : Fin 4 → Bool := fun i => !isNaN32 (rhs i)
  let v0 : Fin 4 → Bool := fun i => mask1 i && mask2 i
  let scratch : Fin 4 → Nat := fun _ => kNaN32
  fun i => if v0 i then fmax32 (rhs i) (lhs i) else scratch i

/-- Result of lowering a two-operand f64x2 SIMD operation: either emitted
code (given as the resulting lane function) or a compile-time bailout of
the whole function. -/
inductive F64x2Emit where
  | emitted (f : (Fin 2 → Nat) → (Fin 2 → Nat) → Fin 2 → Nat) : F64x2Emit
  | bailout (reason : String) : F64x2Emit

/-- Whether the lowering bailed out. -/
def F64x2Emit.isBailout : F64x2Emit → Bool
  | .emitted _ => false
  | .bailout _ => true

/-- Shallow embedding of `emit_f64x2_min`: the function body is
`bailout(kSimd, "emit_f64x2_min")` (the NaN-aware sequence is commented
out), so no code is emitted. -/
def emit_f64x2_min : F64x2Emit := .bailout "emit_f64x2_min"

/-- Shallow embedding of `emit_f64x2_max`: likewise a bailout. -/
def emit_f64x2_max : F64x2Emit := .bailout "emit_f64x2_max"

/-- C5 counterexample: the claim covers the 64-bit lane operations
`emit_f64x2_min`/`emit_f64x2_max`, but those two lowerings emit no code at
all: they bail out of baseline compilation, so no emitted code produces
the required NaN-aware results. -/
theorem f64x2_min_max_bailout_counterexample :
    emit_f64x2_min.isBailout = true ∧ emit_f64x2_max.isBailout = true :=
  ⟨rfl, rfl⟩

/-- C5 (amended): for the 32-bit lane operations `emit_f32x4_min` and
`emit_f32x4_max`, every lane in which either operand is a NaN pattern
receives the canonical quiet NaN `0x7FC00000`, and every lane in which both
operands are non-NaN receives one of the two operand patterns that is a
minimum (resp. maximum) of the two in the IEEE float order.  The 64-bit
lane variants `emit_f64x2_min`/`emit_f64x2_max` emit nothing: they bail
out of baseline compilation. -/
theorem f32x4_min_max_nan_semantics (lhs rhs : Fin 4 → Nat) (i : Fin 4) :
    ((isNaN32 (lhs i) ∨ isNaN32 (rhs i)) →
      emit_f32x4_min lhs rhs i = kNaN32 ∧ emit_f32x4_max lhs rhs i = kNaN32) ∧
    ((¬ isNaN32 (lhs i)) → (¬ isNaN32 (rhs i)) →
      (emit_f32x4_min lhs rhs i = lhs i ∨ emit_f32x4_min lhs rhs i = rhs i) ∧
      f32Key (emit_f32x4_min lhs rhs i) ≤ f32Key (lhs i) ∧
      f32Key (emit_f32x4_min lhs rhs i) ≤ f32Key (rhs i) ∧
      (emit_f32x4_max lhs rhs i = lhs i ∨ emit_f32x4_max lhs rhs i = rhs i) ∧
      f32Key (lhs i) ≤ f32Key (emit_f32x4_max lhs rhs i) ∧
      f32Key (rhs i) ≤ f32Key (emit_f32x4_max lhs rhs i)) ∧
    emit_f64x2_min.isBailout = true ∧ emit_f64x2_max.isBailout = true := by
  refine ⟨?_, ?_, rfl, rfl⟩
  · intro h
    have hv : (!isNaN32 (lhs i) && !isNaN32 (rhs i)) = false := by
      rcases h with h | h <;> simp [h]
    constructor <;> simp [emit_f32x4_min, emit_f32x4_max, hv] <;>
      intro ha hb <;> rcases h with h | h <;> simp_all
  · intro h1 h2
    have hm : (!isNaN32 (lhs i) && !isNaN32 (rhs i)) = true := by
      simp_all
    simp only [emit_f32x4_min, emit_f32x4_max, hm, if_true]
    unfold fmin32 fmax32
    by_cases hc1 : f32Key (rhs i) ≤ f32Key (lhs i) <;>
      by_cases hc2 : f32Key (lhs i) ≤ f32Key (rhs i) <;>
        simp [hc1, hc2] <;> omega

/-- C5 witness: with a NaN in lane 0 of the left operand the emitted min
produces the canonical quiet NaN there, and on the non-NaN lane patterns
3 and 5 it picks the smaller pattern 3. -/
theorem f32x4_min_max_nan_semantics_witness :
    emit_f32x4_min (fun _ => 2143289345) (fun _ => 5) 0 = kNaN32 ∧
    emit_f32x4_min (fun _ => 3) (fun _ => 5) 0 = 3 := by
  constructor
  · exact ((f32x4_min_max_nan_semantics (fun _ => 2143289345) (fun _ => 5)
      0).1 (Or.inl (by decide))).1
  · have h := ((f32x4_min_max_nan_semantics (fun _ => 3) (fun _ => 5) 0).2.1
      (by decide) (by decide))
    rcases h.1 with h1 | h1
    · exact h1
    · exfalso
      have := h.2.1
      rw [h1] at this
      revert this
      decide

/-! ## C7: SIMD lane extract / replace round trip (source lines 3600-3729)

For lane shapes whose scalar fits a 32-bit register the source's
slidedown-extract and mask-merge-replace pattern round-trips.  For the
64-bit shapes it does not: this riscv32 file was ported from the riscv64
one and still moves 64-bit lane scalars through one 32-bit register.

* `emit_i64x2_extract_lane` does `vslidedown_vi` then `vmv_xs dst.gp(), ...`
  with `SEW = E64`.  On this architecture `XLEN = 32 < SEW`, and `vmv_xs`
  transfers only the least-significant XLEN bits of element 0 (RVV spec;
  the vector unit is the external encoder collaborator).  Moreover `dst`
  holds a `kI64` value, i.e. a register *pair*, and `dst.gp()` violates
  `LiftoffRegister`'s own `DCHECK(is_gp())` for pairs — the non-SIMD i64
  lowerings in this very file all use `low_gp()/high_gp()` instead.
* `emit_i64x2_replace_lane` builds the one-bit lane mask correctly but
  merges with `vmerge_vx(dst, src2.gp(), src1)` at `SEW = E64`: the single
  32-bit scalar register is sign-extended to the 64-bit lane (RVV spec for
  `XLEN < SEW`), so the intended 64-bit scalar's high word never reaches
  the lane (and `src2.gp()` again mis-reads a register pair; we model it
  as supplying one 32-bit word).
* `emit_f64x2_replace_lane` likewise uses `fmv_x_d(kScratchReg, src2.fp())`,
  an instruction that does not exist on a 32-bit RISC-V (a double's bits do
  not fit the one scratch register).

The embedding below gives the two i64x2 lane operations their RVV
semantics so the round trip can be evaluated. -/

/-- `vslidedown_vi` on a 2-lane (64-bit) vector: lane `i` of the result is
lane `i + k` of the source (zero past the end). -/
def vslidedown64 (v : Fin 2 → Nat) (k : Nat) : Fin 2 → Nat :=
  fun i => if h : i.val + k < 2 then v ⟨i.val + k, h⟩ else 0

/-- Sign-extension of a 32-bit pattern to a 64-bit pattern (`vmerge_vx`
with `SEW = E64 > XLEN`). -/
def sext32to64 (x : Nat) : Nat :=
  if x < 2147483648 then x else x + 18446744069414584320

/-- Shallow embedding of the code emitted by `emit_i64x2_extract_lane`:
slide the target lane down to position 0 and `vmv_xs` it into the single
32-bit destination register — only the least-significant 32 bits of the
64-bit lane are transferred. -/
def emit_i64x2_extract_lane (v : Fin 2 → Nat) (imm_lane_idx : Nat) : Nat :=
  (vslidedown64 v imm_lane_idx ⟨0, by decide⟩) % wordMod

/-- Shallow embedding of the code emitted by `emit_i64x2_replace_lane`:
`li kScratchReg, 1 << lane; vmv_sx v0, kScratchReg` makes lane `i` active
iff bit `i` of `1 << lane` is set, and the masked `vmerge_vx` writes the
sign-extended 32-bit scalar into the active lanes. -/
def emit_i64x2_replace_lane (v : Fin 2 → Nat) (imm_lane_idx : Nat)
    (src2_word : Nat) : Fin 2 → Nat :=
  fun i => if Nat.testBit (1 <<< imm_lane_idx) i.val
    then sext32to64 src2_word else v i

/-- C7: evaluating the embedded code at the failing input.  Take the
64-bit scalar `x = 2^32` (low word 0, high word 1) and any vector `v`
(here all-fives): `replace_lane(v, 0, x)` can only consult the one 32-bit
register (holding `x`'s low word 0), and the following `extract_lane` at
lane 0 transfers only the low 32 bits, producing 0 — not `x = 2^32` as the
claim requires for the i64x2 shape. -/
theorem i64x2_lane_roundtrip_fails :
    emit_i64x2_extract_lane
      (emit_i64x2_replace_lane (fun _ => 5) 0 (4294967296 % wordMod)) 0 = 0 ∧
    (4294967296 : Nat) ≠ 0 := by
  constructor
  · rfl
  · decide

/-! ## C10: `FillStackSlotsWithZero` (source lines 1157-1189)

Memory cells are word cells at byte addresses; every store in this
function is a 4-byte `Sw` at a 4-aligned address.

The straight-line path (taken when `size <= 12 * kStackSlotSize`, i.e.
`size <= 96`) walks `remainder` down from `size` in steps of
`kStackSlotSize = 8` and does one `Sw(zero_reg, GetStackSlot(start +
remainder))` per step — a 4-byte store per 8-byte slot — then one more
4-byte store when a `remainder` of 4 is left.  The loop path (for larger
sizes) stores 4 bytes at every address from `fp - start - size`
(inclusive) to `fp - start` (exclusive) in steps of 4.  (This file was
ported from riscv64, where the per-slot store is the 8-byte `Sd`; with
`Sw` the straight-line path zeroes only the low half of each 8-byte
slot.)  Both recursions carry explicit fuel so that concrete runs reduce
in the kernel; `fuel = size` strictly dominates the iteration counts
(`size/8` resp. `size/4`), so the fuel never runs out on the inputs
used. -/

/-- The straight-line path's store sequence: the `remainder` loop and the
trailing 4-byte store. -/
def straightLineZero (fp : Int) (start : Nat) :
    Nat → Nat → (Int → Nat) → (Int → Nat)
  | 0, _, m => m
  | fuel + 1, remainder, m =>
    if 8 ≤ remainder then
      straightLineZero fp start fuel (remainder - 8)
        (upd m (GetStackSlot fp (start + remainder : Nat)) 0)
    else if remainder ≠ 0 then
      upd m (GetStackSlot fp (start + remainder : Nat)) 0
    else m

/-- The general path's do-while loop: `Sw(zero_reg, MemOperand(a0));
addi(a0, a0, 4); BranchShort(&loop, ne, a0, a1)`. -/
def loopZero : Nat → (Int → Nat) → Int → Int → (Int → Nat)
  | 0, m, _, _ => m
  | fuel + 1, m, a0, a1 =>
    let m2 := upd m a0 0
    if a0 + 4 = a1 then m2 else loopZero fuel m2 (a0 + 4) a1

/-- Shallow embedding of `FillStackSlotsWithZero(start, size)` as a memory
transformer (the loop path's `Push(a1, a0)`/`Pop(a1, a0)` register
save/restore does not change the cells this claim ranges over and is
elided). -/
def FillStackSlotsWithZero (start size : Nat) (fp : Int) (m : Int → Nat) :
    Int → Nat :=
  if size ≤ 12 * 8 then straightLineZero fp start size size m
  else loopZero size m (fp - start - size) (fp - start)

/-- C10: evaluating the code at the failing input `start = 0`, `size = 16`
(with `fp = 0` and all memory cells holding 7): the claim says both paths
zero every word-aligned cell in `[fp - 16, fp)`, i.e. cells -16, -12, -8
and -4.  The straight-line path — the one the code actually takes for
this size — leaves cell -4 (and -12) untouched at 7, storing only at -16
and -8, while the loop path run on the same bounds zeroes cell -4. -/
theorem fillStackSlots_straight_line_misses_words :
    FillStackSlotsWithZero 0 16 0 (fun _ => 7) (-4) = 7 ∧
    FillStackSlotsWithZero 0 16 0 (fun _ => 7) (-12) = 7 ∧
    FillStackSlotsWithZero 0 16 0 (fun _ => 7) (-16) = 0 ∧
    FillStackSlotsWithZero 0 16 0 (fun _ => 7) (-8) = 0 ∧
    loopZero 16 (fun _ => 7) (0 - 0 - 16) (0 - 0) (-4) = 0 ∧
    loopZero 16 (fun _ => 7) (0 - 0 - 16) (0 - 0) (-12) = 0 := by
  refine ⟨?_, ?_, ?_, ?_, ?_, ?_⟩ <;> decide

/-! ## C2: `liftoff::AtomicBinop` (source lines 732-829) and the six
`AtomicAdd/Sub/And/Or/Xor/Exchange` wrappers (lines 903-944)

The emitted sequence is represented as explicit data.  Registers are
numeric codes; code 0 stands for `zero_reg`.  The emission-time register
choices of the source are parameters: `store_result` is the register
pinned by `GetUnusedRegister(kGpReg, pinned)`, `fresh_result` the one
allocated when `result` aliases `value`/`dst_addr`/`offset_reg`,
`addr_scratch` and `temp` the two `temps.Acquire()` scratch registers.
`CalculateActualAddress` emits `Add(addr_scratch, dst_addr, offset_reg)`
(plus an immediate add when `offset_imm != 0`; the immediate is taken as 0
here, which the source skips).  In `sb`/`sh`/`sc_w` the first register is
the assembler's `rs1`/`rd` as written in the source call. -/

/-- `liftoff::Binop`. -/
inductive Binop where
  | add | sub | and | or | xor | exchange
deriving DecidableEq

/-- The store types `liftoff::AtomicBinop`'s switches distinguish. -/
inductive StoreType where
  | i64s8 | i32s8 | i64s16 | i32s16 | i64s32 | i32s | i64s
deriving DecidableEq

/-- The instructions `AtomicBinop` can emit.  `sb v a` / `sh v a` store the
value of register `v` at the address in register `a`; `sc_w rd a v`
conditionally stores register `v` at the address in register `a` and sets
`rd` to 0 on success / nonzero on failure; `lr_d` is the *doubleword*
load-reserve (an RV64A instruction; RV32A has only `lr_w`/`sc_w`). -/
inductive AInstr where
  | lbu (rd rs1 : Nat)
  | lhu (rd rs1 : Nat)
  | lr_w (rd rs1 : Nat)
  | lr_d (rd rs1 : Nat)
  | sync
  | addR (rd rs1 rs2 : Nat)
  | subR (rd rs1 rs2 : Nat)
  | andR (rd rs1 rs2 : Nat)
  | orR (rd rs1 rs2 : Nat)
  | xorR (rd rs1 rs2 : Nat)
  | mv (rd rs : Nat)
  | sb (rs2 rs1 : Nat)
  | sh (rs2 rs1 : Nat)
  | sc_w (rd rs1 rs2 : Nat)
  | bnezRetry (rs : Nat)
deriving DecidableEq

/-- Shallow embedding of `liftoff::AtomicBinop`: the emitted instruction
list, with the `retry:` label sitting immediately after the leading
address computation (the `bnezRetry` branches back to it). -/
def AtomicBinop (dst_addr offset_reg value result store_result fresh_result
    addr_scratch temp : Nat) (ty : StoreType) (op : Binop) : List AInstr :=
  let result_reg :=
    if result = value ∨ result = dst_addr ∨ result = offset_reg
    then fresh_result else result
  [AInstr.addR addr_scratch dst_addr offset_reg] ++
  (match ty with
   | .i64s8 | .i32s8 => [AInstr.lbu result_reg addr_scratch, AInstr.sync]
   | .i64s16 | .i32s16 => [AInstr.lhu result_reg addr_scratch, AInstr.sync]
   | .i64s32 | .i32s => [AInstr.lr_w result_reg addr_scratch]
   | .i64s => [AInstr.lr_d result_reg addr_scratch]) ++
  (match op with
   | .add => [AInstr.addR temp result_reg value]
   | .sub => [AInstr.subR temp result_reg value]
   | .and => [AInstr.andR temp result_reg value]
   | .or => [AInstr.orR temp result_reg value]
   | .xor => [AInstr.xorR temp result_reg value]
   | .exchange => [AInstr.mv temp value]) ++
  (match ty with
   | .i64s8 | .i32s8 =>
      [AInstr.sync, AInstr.sb temp addr_scratch, AInstr.sync,
       AInstr.mv store_result 0]
   | .i64s16 | .i32s16 =>
      [AInstr.sync, AInstr.sh temp addr_scratch, AInstr.sync,
       AInstr.mv store_result 0]
   | .i64s32 | .i32s => [AInstr.sc_w store_result addr_scratch temp]
   | .i64s => [AInstr.sc_w store_result addr_scratch temp]) ++
  [AInstr.bnezRetry store_result] ++
  (if result_reg ≠ result then [AInstr.mv result result_reg] else [])

/-- `LiftoffAssembler::AtomicAdd` defers to `liftoff::AtomicBinop` with
`Binop::kAdd`; `AtomicSub/And/Or/Xor/Exchange` likewise. -/
def AtomicAdd (dst_addr offset_reg value result store_result fresh_result
    addr_scratch temp : Nat) (ty : StoreType) : List AInstr :=
  AtomicBinop dst_addr offset_reg value result store_result fresh_result
    addr_scratch temp ty .add

/-- C2: evaluating the emission at the failing input `StoreType::kI64Store`
(a 64-bit logical value, which on this 32-bit architecture is a register
pair).  The emitted loop is `lr_d` — a doubleword load-reserve that RV32A
does not provide — into the *single* register `result_reg`, the new value
is computed by one single-width `add` against the single register
`value.gp()` (a pair mis-read as one register), and the conditional store
is the single-word `sc_w`, so only one of the two words would ever be
stored.  This is not the pair-of-words retry loop the claim describes. -/
theorem atomic_binop_i64_pair_width_mismatch :
    AtomicAdd 1 2 3 4 5 6 7 8 .i64s =
      [AInstr.addR 7 1 2, AInstr.lr_d 4 7, AInstr.addR 8 4 3,
       AInstr.sc_w 5 7 8, AInstr.bnezRetry 5] ∧
    AtomicAdd 1 2 3 4 5 6 7 8 .i32s =
      [AInstr.addR 7 1 2, AInstr.lr_w 4 7, AInstr.addR 8 4 3,
       AInstr.sc_w 5 7 8, AInstr.bnezRetry 5] := by
  constructor <;> rfl

/-! ## C3: `LiftoffAssembler::AtomicCompareExchange` (source lines 946-1008)

Interpreted run of the emitted code for the word case
(`StoreType::kI32Store`), with an uncontended memory (the `sc_w`
succeeds), mirroring the source line by line:

* `result_reg` is re-chosen when `result` is in the pinned set
  `{dst_addr, offset_reg, expected, new_value}`;
* `CalculateActualAddress` puts `dst_addr + offset_reg` into the acquired
  scratch register;
* `lr_w(true, true, result_reg, actual_addr)` loads the memory word into
  `result_reg`;
* `Branch(&done, ne, result.gp(), Operand(expected.gp()))` — the source
  compares `result.gp()`, not `result_reg`;
* `sc_w(true, true, store_result, new_value.gp(), actual_addr)` — per the
  assembler's operand order `sc_w(aq, rl, rd, rs1, rs2)` with `rs1` the
  address and `rs2` the stored value (exactly how `liftoff::AtomicBinop`
  calls it: `sc_w(false, true, store_result, actual_addr, temp)`), this
  stores the value of `actual_addr` at the address held in
  `new_value.gp()`;
* `bnez(store_result, &retry)` falls through on success, and the final
  `mv(result.gp(), result_reg)` runs when they differ. -/

/-- Final state of one interpreted run of the word-width compare-exchange
sequence. -/
structure CasResult where
  regs : Nat → Nat
  mem : Nat → Nat
  storeAttempted : Bool
  branchedEarly : Bool

/-- Shallow embedding (interpreted, uncontended, word case) of
`LiftoffAssembler::AtomicCompareExchange`. -/
def AtomicCompareExchange (dst_addr offset_reg expected new_value result
    fresh_result addr_scratch store_result : Nat) (regs : Nat → Nat)
    (mem : Nat → Nat) : CasResult :=
  let result_reg :=
    if result = dst_addr ∨ result = offset_reg ∨ result = expected ∨
       result = new_value
    then fresh_result else result
  let regs1 := upd regs addr_scratch ((regs dst_addr + regs offset_reg) %
    wordMod)
  let regs2 := upd regs1 result_reg (mem (regs1 addr_scratch))
  if regs2 result ≠ regs2 expected then
    let regs3 := if result_reg ≠ result
      then upd regs2 result (regs2 result_reg) else regs2
    ⟨regs3, mem, false, true⟩
  else
    let mem2 := upd mem (regs2 new_value) (regs2 addr_scratch)
    let regs3 := upd regs2 store_result 0
    let regs4 := if result_reg ≠ result
      then upd regs3 result (regs3 result_reg) else regs3
    ⟨regs4, mem2, true, false⟩

/-- C3: evaluating the code at the failing input: take
`result == expected` (register 3) — one of the aliasing choices the claim
explicitly covers — with `dst_addr` = register 1 holding address 100,
`offset_reg` = register 2 holding 0, the expected operand 2 in register 3,
and memory holding 1 at address 100.  The loaded value 1 differs from the
expected 2, so the claim requires an early branch out with no store; but
the emitted compare uses `result.gp()` instead of `result_reg`, compares
register 3 with itself, never branches, and attempts the store — which,
with the swapped `sc_w` operands, even writes the computed address 100 to
address 9 (the contents of the new-value register) instead of storing the
new value at address 100. -/
theorem atomic_cmpxchg_aliased_result_skips_compare :
    (AtomicCompareExchange 1 2 3 4 3 5 6 7
        (fun r => if r = 1 then 100 else if r = 3 then 2 else
          if r = 4 then 9 else 0)
        (fun a => if a = 100 then 1 else 0)).storeAttempted = true ∧
    (AtomicCompareExchange 1 2 3 4 3 5 6 7
        (fun r => if r = 1 then 100 else if r = 3 then 2 else
          if r = 4 then 9 else 0)
        (fun a => if a = 100 then 1 else 0)).branchedEarly = false ∧
    (1 : Nat) ≠ 2 ∧
    (AtomicCompareExchange 1 2 3 4 3 5 6 7
        (fun r => if r = 1 then 100 else if r = 3 then 2 else
          if r = 4 then 9 else 0)
        (fun a => if a = 100 then 1 else 0)).mem 9 = 100 ∧
    (AtomicCompareExchange 1 2 3 4 3 5 6 7
        (fun r => if r = 1 then 100 else if r = 3 then 2 else
          if r = 4 then 9 else 0)
        (fun a => if a = 100 then 1 else 0)).mem 100 = 1 := by
  refine ⟨?_, ?_, ?_, ?_, ?_⟩ <;> decide

/-! ## C1: `PrepareStackFrame` (source lines 313-321) and
`PatchPrepareStackFrame` (source lines 348-418)

`PrepareStackFrame` reserves `addi(sp, sp, 0); nop(); nop()` at `offset`.
`PatchPrepareStackFrame` computes `frame_size = GetTotalFrameSize() -
2 * kSystemPointerSize` (passed in here, as it depends on assembler state
accumulated while lowering the body) and overwrites the placeholder:

* `frame_size < 4 * KB`: a single `Add(sp, sp, Operand(-frame_size))` —
  one logical stack-pointer decrement (the `Add` macro materializes large
  immediates with a scratch register but performs exactly one decrement);
* otherwise: a two-instruction pc-relative jump to out-of-line code that
  (when `frame_size < FLAG_stack_size * 1024`) loads the real stack limit,
  adds `frame_size`, and branches past the overflow call when
  `sp >= limit + frame_size` (unsigned); the fall-through calls the
  runtime `WasmStackOverflow` stub, which does not return.  The
  continuation decrements `sp` by `frame_size` and jumps back to
  `offset + 2 * kInstrSize`, just after the two patched instructions.
  When `frame_size >= FLAG_stack_size * 1024` the limit check is omitted
  and the overflow call is unconditional.

Run-time inputs of the out-of-line check are the current `sp` and the
loaded real stack limit `limit`, both 32-bit values; the `Add` of
`frame_size` to the limit wraps mod `2^32`. -/

/-- Instruction size in bytes. -/
def kInstrSize : Nat := 4

/-- What `PatchPrepareStackFrame` wrote over the placeholder: either the
single stack-pointer decrement, or a jump to the out-of-line check (with
the flag recording whether the limit comparison was emitted, and the
pc-offset the out-of-line code jumps back to). -/
inductive PatchedPrologue where
  | small (frameSize : Nat)
  | large (frameSize : Nat) (checked : Bool) (jumpBackTarget : Nat)
deriving DecidableEq

/-- Shallow embedding of `PatchPrepareStackFrame` (the emission decision;
`flagStackSizeKB` is `FLAG_stack_size`). -/
def PatchPrepareStackFrame (offset frame_size flagStackSizeKB : Nat) :
    PatchedPrologue :=
  if frame_size < 4 * 1024 then .small frame_size
  else .large frame_size (decide (frame_size < flagStackSizeKB * 1024))
    (offset + 2 * kInstrSize)

/-- Outcome of executing a patched prologue: transfer to the stack-overflow
runtime call, or fall-through with the new stack pointer. -/
inductive PatchRun where
  | overflow
  | through (sp : Nat)
deriving DecidableEq

/-- Execute the patched prologue on the run-time state `(sp, limit)`:
the small patch just decrements `sp`; the large patch runs the
out-of-line check (limit load, wrapping add of the frame size, unsigned
`uge` branch) and on fall-through performs the same decrement. -/
def runPatched (p : PatchedPrologue) (sp limit : Nat) : PatchRun :=
  match p with
  | .small f => .through ((sp + wordMod - f) % wordMod)
  | .large f checked _ =>
    if checked then
      let lim2 := (limit + f) % wordMod
      if lim2 ≤ sp then .through ((sp + wordMod - f) % wordMod)
      else .overflow
    else .overflow

/-- C1: under the machine invariants that the loaded stack limit lies at
or below `sp`, that the whole configured stack region fits the 32-bit
address space, and that `sp` is within the configured stack above the
limit, the patch behaves as claimed: below 4 KiB the placeholder becomes a
single stack-pointer decrement (and executing it just subtracts the frame
size); at 4 KiB and above it becomes a jump to the out-of-line sequence
whose jump-back target is right after the two patched instructions, the
out-of-line code transfers to the stack-overflow runtime exactly when the
limit is closer to `sp` than `frame_size` bytes, and otherwise falls
through having performed the same decrement. -/
theorem PatchPrepareStackFrame_correct
    (offset frame_size flagStackSizeKB sp limit : Nat)
    (hsp : sp < wordMod) (hls : limit ≤ sp)
    (hfit : limit + flagStackSizeKB * 1024 < wordMod)
    (hhead : sp < limit + flagStackSizeKB * 1024) :
    (frame_size < 4096 →
      PatchPrepareStackFrame offset frame_size flagStackSizeKB =
        .small frame_size ∧
      (frame_size ≤ sp →
        runPatched (PatchPrepareStackFrame offset frame_size flagStackSizeKB)
          sp limit = .through (sp - frame_size))) ∧
    (4096 ≤ frame_size →
      PatchPrepareStackFrame offset frame_size flagStackSizeKB =
        .large frame_size (decide (frame_size < flagStackSizeKB * 1024))
          (offset + 2 * kInstrSize) ∧
      (runPatched (PatchPrepareStackFrame offset frame_size flagStackSizeKB)
          sp limit = .overflow ↔ sp < limit + frame_size) ∧
      (limit + frame_size ≤ sp →
        runPatched (PatchPrepareStackFrame offset frame_size flagStackSizeKB)
          sp limit = .through (sp - frame_size))) := by
  constructor
  · intro hsmall
    have hp : PatchPrepareStackFrame offset frame_size flagStackSizeKB =
        .small frame_size := by
      unfold PatchPrepareStackFrame
      rw [if_pos (by omega)]
    refine ⟨hp, fun hfs => ?_⟩
    rw [hp]
    simp only [runPatched]
    have harg : (sp + wordMod - frame_size) % wordMod = sp - frame_size := by
      simp only [wordMod] at hsp ⊢
      omega
    rw [harg]
  · intro hlarge
    have hp : PatchPrepareStackFrame offset frame_size flagStackSizeKB =
        .large frame_size (decide (frame_size < flagStackSizeKB * 1024))
          (offset + 2 * kInstrSize) := by
      unfold PatchPrepareStackFrame
      rw [if_neg (by omega)]
    refine ⟨hp, ?_⟩
    rw [hp]
    simp only [runPatched]
    by_cases hc : frame_size < flagStackSizeKB * 1024
    · rw [decide_eq_true hc]
      rw [if_pos rfl]
      have hl2 : (limit + frame_size) % wordMod = limit + frame_size := by
        apply Nat.mod_eq_of_lt
        simp only [wordMod] at hfit ⊢
        omega
      rw [hl2]
      by_cases hle : limit + frame_size ≤ sp
      · rw [if_pos hle]
        refine ⟨⟨fun h => absurd h (by simp), fun h => absurd h (by omega)⟩,
          fun _ => ?_⟩
        have harg : (sp + wordMod - frame_size) % wordMod = sp - frame_size := by
          simp only [wordMod] at hsp ⊢
          omega
        rw [harg]
      · rw [if_neg hle]
        exact ⟨⟨fun _ => by omega, fun _ => rfl⟩, fun h => absurd h hle⟩
    · rw [decide_eq_false hc]
      rw [if_neg (by simp)]
      have hov : sp < limit + frame_size := by omega
      exact ⟨⟨fun _ => hov, fun _ => rfl⟩, fun h => by omega⟩

/-- C1 witness: with the configured stack size 984 KiB, limit 1500000 and
sp 2000000, a 4096-byte frame is patched as a jump to the out-of-line
check, which falls through and decrements sp by 4096; a 100-byte frame is
patched as the single decrement. -/
theorem PatchPrepareStackFrame_correct_witness :
    PatchPrepareStackFrame 64 4096 984 =
      .large 4096 true (64 + 2 * kInstrSize) ∧
    runPatched (PatchPrepareStackFrame 64 4096 984) 2000000 1500000 =
      .through 1995904 ∧
    PatchPrepareStackFrame 64 100 984 = .small 100 ∧
    runPatched (PatchPrepareStackFrame 64 100 984) 2000000 1500000 =
      .through 1999900 := by
  have h := PatchPrepareStackFrame_correct 64 4096 984 2000000 1500000
    (by decide) (by decide) (by decide) (by decide)
  have h2 := PatchPrepareStackFrame_correct 64 100 984 2000000 1500000
    (by decide) (by decide) (by decide) (by decide)
  refine ⟨?_, ?_, ?_, ?_⟩
  · have := (h.2 (by decide)).1
    rw [this]
    decide
  · exact (h.2 (by decide)).2.2 (by decide)
  · exact (h2.1 (by decide)).1
  · exact (h2.1 (by decide)).2 (by decide)

/-! ## C8: `PrepareTailCall` (source lines 323-344)

State: the stack pointer and frame pointer registers (byte addresses,
`Int`) and a memory of word cells keyed by the byte address of the `Sw`
/ `Lw` that accesses them (every access in this function is at a
4-aligned displacement from `sp` or `fp`).  The source sequence:

```
Lw(scratch, MemOperand(fp, 4)); Push(scratch);   // saved return address
Lw(scratch, MemOperand(fp, 0)); Push(scratch);   // saved frame pointer
int slot_count = num_callee_stack_params + 2;
for (int i = slot_count - 1; i >= 0; --i) {
  Lw(scratch, MemOperand(sp, i * 4));
  Sw(scratch, MemOperand(fp, (i - stack_param_delta) * 4));
}
Add(sp, fp, -stack_param_delta * 4);
Pop(ra, fp);
```

Modelled from the spec: the `TurboAssembler` `Push`/`Pop` pairs live
outside `src/`; `Push(reg)` decrements `sp` by one system pointer (4) and
stores the register there, and the matching `Pop(ra, fp)` (mirroring
`Push(ra); Push(fp)` order) loads `fp` from the top of stack (`sp + 0`),
`ra` from `sp + 4`, and adds 8 to `sp`.  The loop reads its slots from the
post-push `sp`. -/

/-- Pointwise update for `Int`-valued memories. -/
def updI (m : Int → Int) (a v : Int) : Int → Int :=
  fun x => if x = a then v else m x

/-- Memory after the two `Lw`/`Push` pairs: the caller's saved return
address (from `fp + 4`) pushed at `sp - 4`, then the caller's saved frame
pointer (from `fp + 0`, read after the first push) at `sp - 8`. -/
def afterPushes (mem : Int → Int) (sp fp : Int) : Int → Int :=
  let m1 := updI mem (sp - 4) (mem (fp + 4))
  updI m1 (sp - 8) (m1 fp)

/-- The copy loop, processing slot indices `slot_count - 1` down to 0:
slot `k` is read from `sp2 + k * 4` and written to
`fp + (k - delta) * 4`. -/
def copySlots (sp2 fp delta : Int) : Nat → (Int → Int) → (Int → Int)
  | 0, m => m
  | k + 1, m =>
    copySlots sp2 fp delta k
      (updI m (fp + ((k : Int) - delta) * 4) (m (sp2 + (k : Int) * 4)))

/-- Final machine state of the emitted tail-call preparation sequence. -/
structure TailCallResult where
  sp : Int
  fp : Int
  ra : Int
  mem : Int → Int

/-- Shallow embedding of `LiftoffAssembler::PrepareTailCall`. -/
def PrepareTailCall (num_callee_stack_params : Nat) (delta : Int)
    (sp fp : Int) (mem : Int → Int) : TailCallResult :=
  let m2 := afterPushes mem sp fp
  let m3 := copySlots (sp - 8) fp delta (num_callee_stack_params + 2) m2
  let spNew := fp - delta * 4
  { sp := spNew + 8, fp := m3 spNew, ra := m3 (spNew + 4), mem := m3 }

theorem copySlots_spec (sp2 fp delta : Int) (k : Nat) (m : Int → Int)
    (hbase : sp2 ≤ fp - delta * 4) :
    (∀ i : Nat, i < k →
      copySlots sp2 fp delta k m (fp + ((i : Int) - delta) * 4) =
        m (sp2 + (i : Int) * 4)) ∧
    (∀ a : Int, (∀ i : Nat, i < k → a ≠ fp + ((i : Int) - delta) * 4) →
      copySlots sp2 fp delta k m a = m a) := by
  induction k generalizing m with
  | zero => exact ⟨fun i hi => absurd hi (by omega), fun a _ => rfl⟩
  | succ k ih =>
    have ihm := ih (updI m (fp + ((k : Int) - delta) * 4)
      (m (sp2 + (k : Int) * 4)))
    constructor
    · intro i hi
      simp only [copySlots]
      by_cases hik : i < k
      · rw [ihm.1 i hik]
        unfold updI
        rw [if_neg (by push_cast; omega)]
      · have hik2 : i = k := by omega
        subst hik2
        rw [ihm.2 (fp + ((i : Int) - delta) * 4)
          (fun j hj => by push_cast; omega)]
        unfold updI
        rw [if_pos rfl]
    · intro a ha
      simp only [copySlots]
      rw [ihm.2 a (fun j hj => ha j (by omega))]
      unfold updI
      rw [if_neg (ha k (by omega))]

/-- C8: under the frame-layout invariants that `sp` sits at or below `fp`
and that the shift destination base `fp - delta * 4` is at or above the
post-push stack top `sp - 8`, the emitted sequence (1) reloads the
caller's saved return address from `fp + 4` and saved frame pointer from
`fp + 0` and pushes them at `sp - 4` and `sp - 8` on top of the frame
being discarded, (2) copies each of the `num_callee_stack_params + 2`
slots `i` from `sp_post_push + i * 4` to `fp + (i - delta) * 4`,
processing the highest slot first so no source word is overwritten before
it is read, and (3) sets the final stack pointer to
`fp - delta * 4 + 8` after popping the return address and frame pointer,
which receive exactly the values reloaded in step (1). -/
theorem PrepareTailCall_correct (n : Nat) (delta sp fp : Int)
    (mem : Int → Int) (hspfp : sp ≤ fp)
    (hshift : sp - 8 ≤ fp - delta * 4) :
    afterPushes mem sp fp (sp - 4) = mem (fp + 4) ∧
    afterPushes mem sp fp (sp - 8) = mem fp ∧
    (∀ i : Nat, i < n + 2 →
      (PrepareTailCall n delta sp fp mem).mem (fp + ((i : Int) - delta) * 4) =
        afterPushes mem sp fp (sp - 8 + (i : Int) * 4)) ∧
    (PrepareTailCall n delta sp fp mem).sp = fp - delta * 4 + 8 ∧
    (PrepareTailCall n delta sp fp mem).ra = mem (fp + 4) ∧
    (PrepareTailCall n delta sp fp mem).fp = mem fp := by
  have hpush1 : afterPushes mem sp fp (sp - 4) = mem (fp + 4) := by
    unfold afterPushes updI
    rw [if_neg (by omega), if_pos rfl]
  have hpush2 : afterPushes mem sp fp (sp - 8) = mem fp := by
    unfold afterPushes updI
    rw [if_pos rfl, if_neg (by omega)]
  have hcopy := copySlots_spec (sp - 8) fp delta (n + 2)
    (afterPushes mem sp fp) (by omega)
  have hmem : ∀ i : Nat, i < n + 2 →
      (PrepareTailCall n delta sp fp mem).mem (fp + ((i : Int) - delta) * 4) =
        afterPushes mem sp fp (sp - 8 + (i : Int) * 4) := by
    intro i hi
    show copySlots (sp - 8) fp delta (n + 2) (afterPushes mem sp fp)
      (fp + ((i : Int) - delta) * 4) = _
    rw [hcopy.1 i hi]
  refine ⟨hpush1, hpush2, hmem, rfl, ?_, ?_⟩
  · show copySlots (sp - 8) fp delta (n + 2) (afterPushes mem sp fp)
      (fp - delta * 4 + 4) = mem (fp + 4)
    have h1 := hcopy.1 1 (by omega)
    have he : fp + ((1 : Nat) - delta : Int) * 4 = fp - delta * 4 + 4 := by
      push_cast
      ring
    rw [he] at h1
    rw [h1]
    have he2 : sp - 8 + ((1 : Nat) : Int) * 4 = sp - 4 := by
      push_cast
      ring
    rw [he2, hpush1]
  · show copySlots (sp - 8) fp delta (n + 2) (afterPushes mem sp fp)
      (fp - delta * 4) = mem fp
    have h0 := hcopy.1 0 (by omega)
    have he : fp + ((0 : Nat) - delta : Int) * 4 = fp - delta * 4 := by
      push_cast
      ring
    rw [he] at h0
    rw [h0]
    have he2 : sp - 8 + ((0 : Nat) : Int) * 4 = sp - 8 := by
      push_cast
      ring
    rw [he2, hpush2]

/-- C8 witness: a concrete frame (`n = 1`, `delta = 1`, `sp = 40`,
`fp = 100`, memory holding `a + 1000` at address `a`): the callee slot 2
lands at `fp + 4 = 104` carrying the word from post-push `sp + 8 = 40`,
the final stack pointer is `fp - 4 + 8 = 104`, and the popped return
address and frame pointer are the caller's saved ones from `fp + 4` and
`fp`. -/
theorem PrepareTailCall_correct_witness :
    (PrepareTailCall 1 1 40 100 (fun a => a + 1000)).mem
      (100 + ((2 : Nat) - (1 : Int)) * 4) = 1040 ∧
    (PrepareTailCall 1 1 40 100 (fun a => a + 1000)).sp = 104 ∧
    (PrepareTailCall 1 1 40 100 (fun a => a + 1000)).ra = 1104 ∧
    (PrepareTailCall 1 1 40 100 (fun a => a + 1000)).fp = 1100 := by
  have h := PrepareTailCall_correct 1 1 40 100 (fun a => a + 1000)
    (by decide) (by decide)
  refine ⟨?_, h.2.2.2.1, ?_, ?_⟩
  · have := h.2.2.1 2 (by omega)
    rw [this]
    show afterPushes (fun a => a + 1000) 40 100 40 = 1040
    unfold afterPushes updI
    rw [if_neg (by decide), if_neg (by decide)]
    norm_num
  · rw [h.2.2.2.2.1]
    norm_num
  · rw [h.2.2.2.2.2]
    norm_num
